import Mathlib

/-
Verification of the transactional ledger core of src/server.js: player
records keyed by normalized phone strings, an append-only event log, and
the register / partyResult (award) / spend / coins operations.

The embedding models the body of each HTTP handler as a pure function from a
typed request and a store state to a result and a new store state.
JavaScript optional body fields become `Option` values; JS truthiness
tests (`!phone`, `!amount`, `x ? x : 0`, `x || d`) are modelled by
explicit helpers. Firestore is modelled as an association list of player
documents plus an insertion-ordered list of event records; a merge `set`
preserves the fields the handler does not write, and `tx.update` on a
missing document is a store-level failure.
-/

namespace DQCS

/-- The characters kept by the `replace(/[^0-9+]/g, "")` in `normalizePhone`:
ASCII digits and the plus sign. -/
def keepChar (c : Char) : Bool := c.isDigit || c == '+'

/-- `normalizePhone` from src/server.js line 27: remove every character that
is not a digit or a plus sign. -/
def normalizePhone (p : String) : String := ⟨p.data.filter keepChar⟩

/-- Modelled from the words of the spec for the key normalizer: keep digits
everywhere but keep a `+` only when it leads the raw string. Used only to
compare the description in the spec with `normalizePhone` from the code. -/
def specNormalizePhone (p : String) : String :=
  match p.data with
  | [] => ""
  | c :: rest =>
    ⟨(if c.isDigit || c == '+' then [c] else []) ++ rest.filter Char.isDigit⟩

/-- JS truthiness of an optional string body field: `undefined` and the
empty string are falsy. -/
def truthyStr : Option String → Bool
  | none => false
  | some s => !(s == "")

/-- JS truthiness of an optional integer body field: `undefined` and `0`
are falsy. -/
def truthyInt : Option Int → Bool
  | none => false
  | some n => !(n == 0)

/-- JS `x ? x : 0` (equivalently `x || 0`) on an optional integer field. -/
def jsNum : Option Int → Int
  | none => 0
  | some v => if v = 0 then 0 else v

/-- JS `x || d` on an optional string field. -/
def jsStr (x : Option String) (d : String) : String :=
  match x with
  | none => d
  | some s => if s = "" then d else s

/-- Per-game score state stored under `partyScores.<gameId>`. -/
structure GameScore where
  lastScore : Int
  bestScore : Int
  deriving DecidableEq

/-- A player document in the `players` collection. Fields a document may
lack are `Option`; a fresh document has every field absent. -/
structure PlayerRecord where
  name : Option String := none
  phone : Option String := none
  coins : Option Int := none
  partyScores : List (String × GameScore) := []
  lastSource : Option String := none
  updatedAt : Option Nat := none
  deriving DecidableEq

/-- A record in the append-only `playerEvents` collection. -/
structure EventRecord where
  phone : String
  source : String
  score : Option Int := none
  amount : Int
  createdAt : Nat
  deriving DecidableEq

/-- The whole store: the `players` documents and the insertion-ordered
event log. -/
structure State where
  players : List (String × PlayerRecord) := []
  events : List EventRecord := []
  deriving DecidableEq

/-- Look up a player document by key. -/
def findRec : List (String × PlayerRecord) → String → Option PlayerRecord
  | [], _ => none
  | (k, r) :: rest, key => if k = key then some r else findRec rest key

/-- Write a player document at a key, replacing an existing one or
appending a new one. -/
def setRec : List (String × PlayerRecord) → String → PlayerRecord →
    List (String × PlayerRecord)
  | [], key, r => [(key, r)]
  | (k, r0) :: rest, key, r =>
    if k = key then (key, r) :: rest else (k, r0) :: setRec rest key r

/-- Look up the score state of one game inside a player document. -/
def findScore : List (String × GameScore) → String → Option GameScore
  | [], _ => none
  | (g, gs) :: rest, gid => if g = gid then some gs else findScore rest gid

/-- Write the score state of one game, replacing or appending. -/
def setScore : List (String × GameScore) → String → GameScore →
    List (String × GameScore)
  | [], gid, gs => [(gid, gs)]
  | (g, gs0) :: rest, gid, gs =>
    if g = gid then (gid, gs) :: rest else (g, gs0) :: setScore rest gid gs

/-- Outcome of one handler invocation. `storeError` stands for a
storage-layer fault surfaced as a 500 (for example `tx.update` on a
missing document). -/
inductive OpResult
  | ok
  | invalidInput
  | insufficientFunds
  | storeError
  deriving DecidableEq

/-- The `/register` handler body (src/server.js lines 46-66): reject when
the raw `phone` is falsy, otherwise merge-set name, phone, lastSource and
updatedAt on the document at the normalized key. -/
def registerOp (now : Nat) (name phone : Option String) (st : State) :
    OpResult × State :=
  if truthyStr phone then
    let pn := normalizePhone (phone.getD "")
    let base := (findRec st.players pn).getD {}
    let r := { base with
      name := some (jsStr name "")
      phone := some pn
      lastSource := some "registration"
      updatedAt := some now }
    (OpResult.ok, { st with players := setRec st.players pn r })
  else (OpResult.invalidInput, st)

/-- The current-best read in `/partyResult`:
`snap.exists && snap.get(bestPath) ? snap.get(bestPath) : 0`. A missing
document, a missing path and a falsy (zero) stored value all read as 0. -/
def readBest (players : List (String × PlayerRecord)) (key gid : String) :
    Int :=
  match findRec players key with
  | none => 0
  | some r =>
    match findScore r.partyScores gid with
    | none => 0
    | some gs => if gs.bestScore = 0 then 0 else gs.bestScore

/-- The `/partyResult` handler body (src/server.js lines 69-111): reject
when `phone` or `gameId` is falsy; otherwise, in one transaction,
merge-set the lastScore and new best score of the game, increment `coins`,
append one event record. -/
def partyResultOp (now : Nat) (phone gameId : Option String)
    (score coins : Option Int) (st : State) : OpResult × State :=
  if truthyStr phone && truthyStr gameId then
    let pn := normalizePhone (phone.getD "")
    let gid := gameId.getD ""
    let newBest := max (readBest st.players pn gid) (jsNum score)
    let base := (findRec st.players pn).getD {}
    let r := { base with
      partyScores := setScore base.partyScores gid
        { lastScore := jsNum score, bestScore := newBest }
      coins := some (base.coins.getD 0 + jsNum coins)
      lastSource := some ("party:" ++ gid)
      updatedAt := some now }
    let ev : EventRecord :=
      { phone := pn, source := "party:" ++ gid, score := some (jsNum score)
        amount := jsNum coins, createdAt := now }
    (OpResult.ok,
      { players := setRec st.players pn r, events := st.events ++ [ev] })
  else (OpResult.invalidInput, st)

/-- The `/spend` handler body (src/server.js lines 114-147): reject when
`phone` or `amount` is falsy; read the balance inside the transaction and
return insufficient funds without writing when `balance < amount`;
otherwise decrement `coins` (via `tx.update`, which fails on a missing
document) and append one event with the negated amount. -/
def spendOp (now : Nat) (phone : Option String) (amount : Option Int)
    (reason : Option String) (st : State) : OpResult × State :=
  if truthyStr phone && truthyInt amount then
    let pn := normalizePhone (phone.getD "")
    let amt := amount.getD 0
    let balance : Int :=
      match findRec st.players pn with
      | none => 0
      | some r => jsNum r.coins
    if balance < amt then (OpResult.insufficientFunds, st)
    else
      match findRec st.players pn with
      | none => (OpResult.storeError, st)
      | some r =>
        let r' := { r with
          coins := some (r.coins.getD 0 - amt)
          lastSource := some (jsStr reason "spend")
          updatedAt := some now }
        let ev : EventRecord :=
          { phone := pn, source := jsStr reason "spend", amount := -amt
            createdAt := now }
        (OpResult.ok,
          { players := setRec st.players pn r', events := st.events ++ [ev] })
  else (OpResult.invalidInput, st)

/-- The `/coins` handler body (src/server.js lines 150-160): reject when
the *normalized* phone is empty, otherwise return the stored balance
(`snap.get("coins") || 0`, 0 for a missing document) without writing. -/
def coinsQuery (phone : Option String) (st : State) : Option Int × State :=
  let pn := normalizePhone (phone.getD "")
  if pn = "" then (none, st)
  else
    match findRec st.players pn with
    | none => (some 0, st)
    | some r => (some (jsNum r.coins), st)

/-- One inbound mutation request. -/
inductive Op
  | register (now : Nat) (name phone : Option String)
  | partyResult (now : Nat) (phone gameId : Option String)
      (score coins : Option Int)
  | spend (now : Nat) (phone : Option String) (amount : Option Int)
      (reason : Option String)

/-- The state transition of one request (the response is discarded). -/
def step (st : State) : Op → State
  | Op.register now name phone => (registerOp now name phone st).2
  | Op.partyResult now phone gameId score coins =>
    (partyResultOp now phone gameId score coins st).2
  | Op.spend now phone amount reason => (spendOp now phone amount reason st).2

/-- The empty store. -/
def emptyState : State := {}

/-- Run a sequence of requests against the empty store. -/
def run (ops : List Op) : State := ops.foldl step emptyState

/-- The balance the store holds for a key: the `coins` field of the
player document, 0 when the document or the field is absent. -/
def balanceOf (st : State) (key : String) : Int :=
  match findRec st.players key with
  | none => 0
  | some r => r.coins.getD 0

/-- Sum of the signed amounts of the event records for one key. -/
def eventSum (evs : List EventRecord) (key : String) : Int :=
  ((evs.filter fun e => e.phone == key).map EventRecord.amount).sum

/-! ### Basic lemmas about the embedding -/

theorem jsNum_eq_getD (x : Option Int) : jsNum x = x.getD 0 := by
  cases x with
  | none => rfl
  | some v =>
    by_cases h : v = 0
    · simp [jsNum, h]
    · simp [jsNum, h]

theorem truthyStr_false_iff (x : Option String) :
    truthyStr x = false ↔ x = none ∨ x = some "" := by
  cases x with
  | none => simp [truthyStr]
  | some s =>
    simp only [truthyStr, Bool.not_eq_false', beq_iff_eq]
    constructor
    · intro h; exact Or.inr (by rw [h])
    · rintro (h | h)
      · cases h
      · cases h; rfl

theorem truthyStr_true_iff (x : Option String) :
    truthyStr x = true ↔ ∃ s, x = some s ∧ s ≠ "" := by
  cases x with
  | none => simp [truthyStr]
  | some s => simp [truthyStr]

theorem truthyInt_false_iff (x : Option Int) :
    truthyInt x = false ↔ x = none ∨ x = some 0 := by
  cases x with
  | none => simp [truthyInt]
  | some n =>
    simp only [truthyInt, Bool.not_eq_false', beq_iff_eq]
    constructor
    · intro h; exact Or.inr (by rw [h])
    · rintro (h | h)
      · cases h
      · cases h; rfl

theorem findRec_setRec (ps : List (String × PlayerRecord)) (key k : String)
    (r : PlayerRecord) :
    findRec (setRec ps key r) k = if k = key then some r else findRec ps k := by
  induction ps with
  | nil =>
    by_cases h : k = key
    · simp [setRec, findRec, h]
    · simp [setRec, findRec, h, Ne.symm h]
  | cons hd tl ih =>
    obtain ⟨k0, r0⟩ := hd
    simp only [setRec]
    by_cases h0 : k0 = key
    · subst h0
      simp only [if_pos rfl, findRec]
      by_cases h : k0 = k
      · subst h; simp
      · simp [h, Ne.symm h]
    · simp only [if_neg h0, findRec, ih]
      by_cases h1 : k0 = k
      · have h2 : ¬k = key := fun hh => h0 (h1.trans hh)
        simp [h1, h2]
      · simp [h1]

theorem findScore_setScore (l : List (String × GameScore)) (gid g : String)
    (gs : GameScore) :
    findScore (setScore l gid gs) g =
      if g = gid then some gs else findScore l g := by
  induction l with
  | nil =>
    by_cases h : g = gid
    · simp [setScore, findScore, h]
    · simp [setScore, findScore, h, Ne.symm h]
  | cons hd tl ih =>
    obtain ⟨g0, gs0⟩ := hd
    simp only [setScore]
    by_cases h0 : g0 = gid
    · subst h0
      simp only [if_pos rfl, findScore]
      by_cases h : g0 = g
      · subst h; simp
      · simp [h, Ne.symm h]
    · simp only [if_neg h0, findScore, ih]
      by_cases h1 : g0 = g
      · have h2 : ¬g = gid := fun hh => h0 (h1.trans hh)
        simp [h1, h2]
      · simp [h1]

theorem eventSum_nil (key : String) : eventSum [] key = 0 := rfl

theorem eventSum_append (a b : List EventRecord) (key : String) :
    eventSum (a ++ b) key = eventSum a key + eventSum b key := by
  simp [eventSum, List.filter_append]

theorem eventSum_single (e : EventRecord) (key : String) :
    eventSum [e] key = if e.phone = key then e.amount else 0 := by
  by_cases h : e.phone = key
  · simp [eventSum, List.filter_cons, h]
  · simp [eventSum, List.filter_cons, h]

theorem filter_keepChar_idem (l : List Char) :
    (l.filter keepChar).filter keepChar = l.filter keepChar := by
  induction l with
  | nil => rfl
  | cons c t ih =>
    by_cases h : keepChar c
    · simp [List.filter_cons, h, ih]
    · simp [List.filter_cons, h, ih]

theorem bool_and_false_iff (a b : Bool) :
    (a && b) = false ↔ a = false ∨ b = false := by
  cases a <;> cases b <;> simp

theorem spendOp_guard_false (now : Nat) (phone : Option String)
    (amount : Option Int) (reason : Option String) (st : State)
    (h : (truthyStr phone && truthyInt amount) = false) :
    spendOp now phone amount reason st = (OpResult.invalidInput, st) := by
  simp [spendOp, h]

theorem spendOp_guard_true_ne_invalid (now : Nat) (phone : Option String)
    (amount : Option Int) (reason : Option String) (st : State)
    (h : (truthyStr phone && truthyInt amount) = true) :
    (spendOp now phone amount reason st).1 ≠ OpResult.invalidInput := by
  simp only [spendOp, h, if_true]
  split
  · simp
  · split <;> simp

theorem registerOp_guard_false (now : Nat) (name phone : Option String)
    (st : State) (h : truthyStr phone = false) :
    registerOp now name phone st = (OpResult.invalidInput, st) := by
  simp [registerOp, h]

/-! ### Claim theorems -/

/-- C9: the key normalizer is idempotent; already-canonical keys are fixed
points of `normalizePhone`. -/
theorem normalizePhone_idempotent (s : String) :
    normalizePhone (normalizePhone s) = normalizePhone s := by
  simp only [normalizePhone]
  exact congrArg String.mk (filter_keepChar_idem s.data)

/-- C4 counterexample: the claim says every character except digits and a
leading `+` is removed, but on `"1+2"` the code keeps the interior plus
sign, while removing all but digits and a leading plus would give `"12"`. -/
theorem normalizePhone_keeps_interior_plus :
    normalizePhone "1+2" = "1+2" ∧ specNormalizePhone "1+2" = "12" ∧
      normalizePhone "1+2" ≠ specNormalizePhone "1+2" := by
  decide

/-- C4 (amended): the key normalizer removes every character other than
digits and plus signs (a `+` is kept wherever it occurs, not only in
leading position); it is a deterministic total function on strings, its
output is an order-preserving subsequence of the input consisting only of
digits and plus signs, and the two examples normalize as stated. -/
theorem normalizePhone_spec :
    (∀ s : String, (normalizePhone s).data = s.data.filter keepChar ∧
      (normalizePhone s).data.Sublist s.data ∧
      ∀ c ∈ (normalizePhone s).data, c.isDigit ∨ c = '+') ∧
    normalizePhone "+1 (555) 123-4567" = "+15551234567" ∧
    normalizePhone "15551234567" = "15551234567" := by
  refine ⟨fun s => ⟨rfl, List.filter_sublist _, ?_⟩, by decide, by decide⟩
  intro c hc
  have hk : keepChar c = true := List.of_mem_filter hc
  simp only [keepChar, Bool.or_eq_true, beq_iff_eq] at hk
  exact hk

/-- C4 witness: the amended theorem applied to the first example. -/
theorem normalizePhone_spec_witness :
    normalizePhone "+1 (555) 123-4567" = "+15551234567" :=
  normalizePhone_spec.2.1

/-- C3 counterexample: a spend with the negative amount `-5` against a
player whose balance is 0 is not rejected as invalid input; it commits,
appends an event of amount `+5`, and raises the balance to 5. -/
theorem spend_negative_amount_not_rejected :
    (spendOp 0 (some "1") (some (-5)) none
      { players := [("1", { coins := some 0 })], events := [] }).1 =
        OpResult.ok ∧
    (spendOp 0 (some "1") (some (-5)) none
      { players := [("1", { coins := some 0 })], events := [] }).2.events =
        [{ phone := "1", source := "spend", amount := 5, createdAt := 0 }] ∧
    balanceOf (spendOp 0 (some "1") (some (-5)) none
      { players := [("1", { coins := some 0 })], events := [] }).2 "1" = 5 := by
  decide

/-- C3 (amended): the spend operation rejects with invalid input exactly
when the key is falsy or the amount is missing or zero; a missing or zero
amount causes no state change. A strictly negative amount is not rejected
by input validation. -/
theorem spend_invalid_input_iff (st : State) (now : Nat)
    (phone : Option String) (amount : Option Int) (reason : Option String) :
    ((spendOp now phone amount reason st).1 = OpResult.invalidInput ↔
      (phone = none ∨ phone = some "" ∨ amount = none ∨ amount = some 0)) ∧
    ((amount = none ∨ amount = some 0) →
      (spendOp now phone amount reason st).2 = st) := by
  by_cases hb : (truthyStr phone && truthyInt amount) = true
  · obtain ⟨hp, ha⟩ := Bool.and_eq_true_iff.1 hb
    constructor
    · constructor
      · intro hres
        exact absurd hres
          (spendOp_guard_true_ne_invalid now phone amount reason st hb)
      · rintro (h | h | h | h)
        · rw [(truthyStr_false_iff phone).2 (Or.inl h)] at hp; cases hp
        · rw [(truthyStr_false_iff phone).2 (Or.inr h)] at hp; cases hp
        · rw [(truthyInt_false_iff amount).2 (Or.inl h)] at ha; cases ha
        · rw [(truthyInt_false_iff amount).2 (Or.inr h)] at ha; cases ha
    · intro h
      rw [(truthyInt_false_iff amount).2 h] at ha; cases ha
  · have hb' : (truthyStr phone && truthyInt amount) = false :=
      Bool.eq_false_iff.2 hb
    rw [spendOp_guard_false now phone amount reason st hb']
    rcases (bool_and_false_iff _ _).1 hb' with h | h
    · rcases (truthyStr_false_iff phone).1 h with h1 | h1 <;>
        simp [h1]
    · rcases (truthyInt_false_iff amount).1 h with h1 | h1 <;>
        simp [h1]

/-- C3 witness: the amended theorem applied at a zero amount. -/
theorem spend_invalid_input_iff_witness :
    (spendOp 0 (some "1") (some 0) none emptyState).1 =
      OpResult.invalidInput ∧
    (spendOp 0 (some "1") (some 0) none emptyState).2 = emptyState :=
  ⟨(spend_invalid_input_iff emptyState 0 (some "1") (some 0) none).1.mpr
      (Or.inr (Or.inr (Or.inr rfl))),
    (spend_invalid_input_iff emptyState 0 (some "1") (some 0) none).2
      (Or.inr rfl)⟩

/-- C6 counterexample: the raw phone `"abc"` is non-empty, so it passes
the validation of the handler even though it normalizes to the empty key; the
registration is not rejected as invalid input. -/
theorem register_empty_key_not_rejected :
    normalizePhone "abc" = "" ∧
    (registerOp 0 none (some "abc") emptyState).1 ≠ OpResult.invalidInput := by
  decide

/-- C6 (amended): registration rejects with invalid input exactly when the
*raw* phone is missing or empty — the check happens before normalization —
and in that case writes nothing; a non-empty raw phone that normalizes to
the empty key is not rejected as invalid input. -/
theorem register_invalid_input_iff (st : State) (now : Nat)
    (name phone : Option String) :
    ((registerOp now name phone st).1 = OpResult.invalidInput ↔
      (phone = none ∨ phone = some "")) ∧
    ((phone = none ∨ phone = some "") →
      (registerOp now name phone st).2 = st) := by
  by_cases hb : truthyStr phone = true
  · constructor
    · constructor
      · intro hres
        revert hres
        simp [registerOp, hb]
      · intro h
        rw [(truthyStr_false_iff phone).2 h] at hb; cases hb
    · intro h
      rw [(truthyStr_false_iff phone).2 h] at hb; cases hb
  · have hb' : truthyStr phone = false := Bool.eq_false_iff.2 hb
    rw [registerOp_guard_false now name phone st hb']
    simp [(truthyStr_false_iff phone).1 hb']

/-- C6 witness: the amended theorem applied at an empty raw phone. -/
theorem register_invalid_input_iff_witness :
    (registerOp 0 (some "Ann") (some "") emptyState).1 =
      OpResult.invalidInput ∧
    (registerOp 0 (some "Ann") (some "") emptyState).2 = emptyState :=
  ⟨(register_invalid_input_iff emptyState 0 (some "Ann") (some "")).1.mpr
      (Or.inr rfl),
    (register_invalid_input_iff emptyState 0 (some "Ann") (some "")).2
      (Or.inr rfl)⟩

theorem spendOp_char (st : State) (now : Nat) (p : String) (a : Int)
    (reason : Option String) (hp : p ≠ "") (ha0 : a ≠ 0) :
    spendOp now (some p) (some a) reason st =
      if balanceOf st (normalizePhone p) < a then
        (OpResult.insufficientFunds, st)
      else
        match findRec st.players (normalizePhone p) with
        | none => (OpResult.storeError, st)
        | some r =>
          (OpResult.ok,
            { players := setRec st.players (normalizePhone p)
                { r with
                  coins := some (r.coins.getD 0 - a)
                  lastSource := some (jsStr reason "spend")
                  updatedAt := some now }
              events := st.events ++
                [{ phone := normalizePhone p, source := jsStr reason "spend"
                   amount := -a, createdAt := now }] }) := by
  have hb : (truthyStr (some p) && truthyInt (some a)) = true := by
    simp [truthyStr, truthyInt, hp, ha0]
  simp only [spendOp, hb, if_true, Option.getD_some]
  cases hfind : findRec st.players (normalizePhone p) with
  | none => simp [balanceOf, hfind]
  | some r => simp [balanceOf, hfind, jsNum_eq_getD]

/-- C1: for a spend request with a valid (truthy) key and a positive
amount, the operation succeeds exactly when the current balance is at
least the amount, and an insufficient-funds rejection leaves the whole
store — the player record and the event log — unchanged. -/
theorem spend_succeeds_iff_sufficient (st : State) (now : Nat) (p : String)
    (reason : Option String) (a : Int) (hp : p ≠ "") (ha : 0 < a) :
    ((spendOp now (some p) (some a) reason st).1 = OpResult.ok ↔
      a ≤ balanceOf st (normalizePhone p)) ∧
    ((spendOp now (some p) (some a) reason st).1 =
        OpResult.insufficientFunds →
      (spendOp now (some p) (some a) reason st).2 = st) := by
  rw [spendOp_char st now p a reason hp ha.ne']
  by_cases hlt : balanceOf st (normalizePhone p) < a
  · rw [if_pos hlt]
    exact ⟨⟨fun h => OpResult.noConfusion h,
      fun h => absurd hlt (not_lt.2 h)⟩, fun _ => rfl⟩
  · rw [if_neg hlt]
    cases hfind : findRec st.players (normalizePhone p) with
    | none =>
      exfalso
      have hz : balanceOf st (normalizePhone p) = 0 := by
        simp [balanceOf, hfind]
      rw [hz] at hlt
      omega
    | some r =>
      exact ⟨⟨fun _ => not_lt.1 hlt, fun _ => rfl⟩,
        fun h => OpResult.noConfusion h⟩

/-- A one-player store holding 5 coins, used for the C1 witness. -/
def fiveCoinState : State :=
  { players := [("1", { coins := some 5 })], events := [] }

/-- C1 witness: a player holding 5 coins can spend 2 and cannot spend 9;
the theorem applied at those concrete inputs. -/
theorem spend_succeeds_iff_sufficient_witness :
    (((spendOp 0 (some "1") (some 2) none fiveCoinState).1 = OpResult.ok ↔
      2 ≤ balanceOf fiveCoinState (normalizePhone "1")) ∧
    ((spendOp 0 (some "1") (some 2) none fiveCoinState).1 =
        OpResult.insufficientFunds →
      (spendOp 0 (some "1") (some 2) none fiveCoinState).2 =
        fiveCoinState)) ∧
    (((spendOp 0 (some "1") (some 9) none fiveCoinState).1 = OpResult.ok ↔
      9 ≤ balanceOf fiveCoinState (normalizePhone "1")) ∧
    ((spendOp 0 (some "1") (some 9) none fiveCoinState).1 =
        OpResult.insufficientFunds →
      (spendOp 0 (some "1") (some 9) none fiveCoinState).2 =
        fiveCoinState)) :=
  ⟨spend_succeeds_iff_sufficient fiveCoinState 0 "1" none 2
      (by decide) (by decide),
    spend_succeeds_iff_sufficient fiveCoinState 0 "1" none 9
      (by decide) (by decide)⟩

/-- C7: an accepted registration touches neither the coin balance nor the
per-game score state of any player; on the registered key it writes only
the name, phone, lastSource and updatedAt fields, and the documents of all
other keys and the event log are untouched. -/
theorem register_frame (st : State) (now : Nat) (name : Option String)
    (p : String) (hp : p ≠ "") :
    (registerOp now name (some p) st).1 = OpResult.ok ∧
    (registerOp now name (some p) st).2.events = st.events ∧
    balanceOf (registerOp now name (some p) st).2 (normalizePhone p) =
      balanceOf st (normalizePhone p) ∧
    (∀ k, k ≠ normalizePhone p →
      findRec (registerOp now name (some p) st).2.players k =
        findRec st.players k) ∧
    ∃ r', findRec (registerOp now name (some p) st).2.players
        (normalizePhone p) = some r' ∧
      r'.coins = ((findRec st.players (normalizePhone p)).getD {}).coins ∧
      r'.partyScores =
        ((findRec st.players (normalizePhone p)).getD {}).partyScores ∧
      r'.name = some (jsStr name "") ∧
      r'.phone = some (normalizePhone p) ∧
      r'.lastSource = some "registration" ∧
      r'.updatedAt = some now := by
  have hb : truthyStr (some p) = true := by simp [truthyStr, hp]
  simp only [registerOp, hb, if_true, Option.getD_some]
  refine ⟨by trivial, by trivial, ?_, ?_, ?_⟩
  · simp only [balanceOf]
    rw [findRec_setRec, if_pos rfl]
    cases hfind : findRec st.players (normalizePhone p) with
    | none => simp [hfind]
    | some r0 => simp [hfind]
  · intro k hk
    simp [findRec_setRec, hk]
  · refine ⟨{ (findRec st.players (normalizePhone p)).getD {} with
        name := some (jsStr name "")
        phone := some (normalizePhone p)
        lastSource := some "registration"
        updatedAt := some now }, ?_, rfl, rfl, rfl, rfl, rfl, rfl⟩
    rw [findRec_setRec, if_pos rfl]

/-- A store whose single player already holds coins and scores, used for
the C7 witness. -/
def scoredState : State :=
  { players := [("5550100",
      { coins := some 5,
        partyScores := [("run", { lastScore := 3, bestScore := 10 })] })],
    events := [] }

/-- C7 witness: the theorem applied to a player that already holds coins
and scores. -/
theorem register_frame_witness :
    (registerOp 7 (some "Ann") (some "555-0100") scoredState).1 =
      OpResult.ok ∧
    (registerOp 7 (some "Ann") (some "555-0100") scoredState).2.events =
      scoredState.events ∧
    balanceOf (registerOp 7 (some "Ann") (some "555-0100") scoredState).2
        (normalizePhone "555-0100") =
      balanceOf scoredState (normalizePhone "555-0100") ∧
    (∀ k, k ≠ normalizePhone "555-0100" →
      findRec (registerOp 7 (some "Ann") (some "555-0100")
          scoredState).2.players k =
        findRec scoredState.players k) ∧
    ∃ r', findRec (registerOp 7 (some "Ann") (some "555-0100")
        scoredState).2.players (normalizePhone "555-0100") = some r' ∧
      r'.coins =
        ((findRec scoredState.players (normalizePhone "555-0100")).getD
          {}).coins ∧
      r'.partyScores =
        ((findRec scoredState.players (normalizePhone "555-0100")).getD
          {}).partyScores ∧
      r'.name = some (jsStr (some "Ann") "") ∧
      r'.phone = some (normalizePhone "555-0100") ∧
      r'.lastSource = some "registration" ∧
      r'.updatedAt = some 7 :=
  register_frame scoredState 7 (some "Ann") "555-0100" (by decide)

/-- C8: the balance query is read-only — it returns the store unchanged —
and answers the stored balance for the key, in particular 0 when no
document exists. -/
theorem coins_query_reads_balance (st : State) (p : String)
    (h : normalizePhone p ≠ "") :
    (coinsQuery (some p) st).2 = st ∧
    (coinsQuery (some p) st).1 = some (balanceOf st (normalizePhone p)) ∧
    (findRec st.players (normalizePhone p) = none →
      (coinsQuery (some p) st).1 = some 0) := by
  cases hfind : findRec st.players (normalizePhone p) with
  | none => simp [coinsQuery, h, balanceOf, hfind]
  | some r => simp [coinsQuery, h, balanceOf, hfind, jsNum_eq_getD]

/-- C8 witness: the theorem applied to a store with one player holding 5
coins, and the missing-record case at another key. -/
theorem coins_query_reads_balance_witness :
    ((coinsQuery (some "1") fiveCoinState).2 = fiveCoinState ∧
    (coinsQuery (some "1") fiveCoinState).1 =
      some (balanceOf fiveCoinState (normalizePhone "1")) ∧
    (findRec fiveCoinState.players (normalizePhone "1") = none →
      (coinsQuery (some "1") fiveCoinState).1 = some 0)) ∧
    ((coinsQuery (some "2") fiveCoinState).2 = fiveCoinState ∧
    (coinsQuery (some "2") fiveCoinState).1 =
      some (balanceOf fiveCoinState (normalizePhone "2")) ∧
    (findRec fiveCoinState.players (normalizePhone "2") = none →
      (coinsQuery (some "2") fiveCoinState).1 = some 0)) :=
  ⟨coins_query_reads_balance fiveCoinState "1" (by decide),
    coins_query_reads_balance fiveCoinState "2" (by decide)⟩

theorem balanceOf_eq_base (st : State) (k : String) :
    balanceOf st k = ((findRec st.players k).getD {}).coins.getD 0 := by
  unfold balanceOf
  cases h : findRec st.players k <;> simp [h]

theorem partyResultOp_char (st : State) (now : Nat) (p g : String)
    (s c : Option Int) (hp : p ≠ "") (hg : g ≠ "") :
    partyResultOp now (some p) (some g) s c st =
      (OpResult.ok,
        { players := setRec st.players (normalizePhone p)
            ({ (findRec st.players (normalizePhone p)).getD {} with
               partyScores := setScore
                 ((findRec st.players (normalizePhone p)).getD {}).partyScores
                 g
                 ({ lastScore := jsNum s,
                    bestScore :=
                      max (readBest st.players (normalizePhone p) g)
                        (jsNum s) }),
               coins := some
                 (((findRec st.players (normalizePhone p)).getD
                   {}).coins.getD 0 + jsNum c),
               lastSource := some ("party:" ++ g),
               updatedAt := some now }),
          events := st.events ++
            [{ phone := normalizePhone p, source := "party:" ++ g,
               score := some (jsNum s), amount := jsNum c,
               createdAt := now }] }) := by
  have hb : (truthyStr (some p) && truthyStr (some g)) = true := by
    simp [truthyStr, hp, hg]
  simp only [partyResultOp, hb, if_true, Option.getD_some]

theorem partyResultOp_guard_false (st : State) (now : Nat)
    (phone gameId : Option String) (s c : Option Int)
    (h : (truthyStr phone && truthyStr gameId) = false) :
    partyResultOp now phone gameId s c st = (OpResult.invalidInput, st) := by
  simp [partyResultOp, h]

theorem registerOp_state_char (st : State) (now : Nat)
    (name : Option String) (p : String) (hp : p ≠ "") :
    (registerOp now name (some p) st).2.players =
      setRec st.players (normalizePhone p)
        ({ (findRec st.players (normalizePhone p)).getD {} with
           name := some (jsStr name ""),
           phone := some (normalizePhone p),
           lastSource := some "registration",
           updatedAt := some now }) ∧
    (registerOp now name (some p) st).2.events = st.events := by
  have hb : truthyStr (some p) = true := by simp [truthyStr, hp]
  simp only [registerOp, hb, if_true, Option.getD_some]
  exact ⟨by trivial, by trivial⟩

/-- Every step appends at most one event, and for every key the balance
change of the step equals the summed amount of the appended events for
that key. -/
theorem step_events_delta (st : State) (o : Op) :
    ∃ new, (step st o).events = st.events ++ new ∧ new.length ≤ 1 ∧
      ∀ k, balanceOf (step st o) k = balanceOf st k + eventSum new k := by
  cases o with
  | register now name phone =>
    by_cases hb : truthyStr phone = true
    · obtain ⟨p, hpq, hp⟩ := (truthyStr_true_iff phone).1 hb
      subst hpq
      obtain ⟨hpl, hev⟩ := registerOp_state_char st now name p hp
      refine ⟨[], ?_, by simp, ?_⟩
      · rw [step, hev]
        simp
      · intro k
        rw [step, eventSum_nil]
        rw [balanceOf_eq_base, balanceOf_eq_base, hpl]
        simp only [findRec_setRec]
        by_cases hk : k = normalizePhone p
        · rw [if_pos hk]
          simp [hk]
        · rw [if_neg hk]
          simp
    · refine ⟨[], ?_, by simp, ?_⟩
      · rw [step, registerOp_guard_false now name phone st
          (Bool.eq_false_iff.2 hb)]
        simp
      · intro k
        rw [step, registerOp_guard_false now name phone st
          (Bool.eq_false_iff.2 hb), eventSum_nil]
        simp
  | partyResult now phone gameId s c =>
    by_cases hb : (truthyStr phone && truthyStr gameId) = true
    · obtain ⟨hbp, hbg⟩ := Bool.and_eq_true_iff.1 hb
      obtain ⟨p, hpq, hp⟩ := (truthyStr_true_iff phone).1 hbp
      obtain ⟨g, hgq, hg⟩ := (truthyStr_true_iff gameId).1 hbg
      subst hpq
      subst hgq
      refine ⟨[{ phone := normalizePhone p, source := "party:" ++ g,
                 score := some (jsNum s), amount := jsNum c,
                 createdAt := now }],
        ?_, by simp, ?_⟩
      · rw [step, partyResultOp_char st now p g s c hp hg]
      · intro k
        rw [step, partyResultOp_char st now p g s c hp hg]
        rw [balanceOf_eq_base, balanceOf_eq_base, eventSum_single]
        simp only [findRec_setRec]
        by_cases hk : k = normalizePhone p
        · rw [if_pos hk, if_pos hk.symm]
          simp [hk]
        · rw [if_neg hk, if_neg (fun hh => hk hh.symm)]
          simp
    · refine ⟨[], ?_, by simp, ?_⟩
      · rw [step, partyResultOp_guard_false st now phone gameId s c
          (Bool.eq_false_iff.2 hb)]
        simp
      · intro k
        rw [step, partyResultOp_guard_false st now phone gameId s c
          (Bool.eq_false_iff.2 hb), eventSum_nil]
        simp
  | spend now phone amount reason =>
    by_cases hb : (truthyStr phone && truthyInt amount) = true
    · obtain ⟨hbp, hba⟩ := Bool.and_eq_true_iff.1 hb
      obtain ⟨p, hpq, hp⟩ := (truthyStr_true_iff phone).1 hbp
      have ha0 : ∃ a : Int, amount = some a ∧ a ≠ 0 := by
        cases amount with
        | none => simp [truthyInt] at hba
        | some a =>
          refine ⟨a, rfl, ?_⟩
          simpa [truthyInt] using hba
      obtain ⟨a, haq, ha⟩ := ha0
      subst hpq
      subst haq
      rw [step, spendOp_char st now p a reason hp ha]
      by_cases hlt : balanceOf st (normalizePhone p) < a
      · rw [if_pos hlt]
        exact ⟨[], by simp, by simp, fun k => by simp [eventSum_nil]⟩
      · rw [if_neg hlt]
        cases hfind : findRec st.players (normalizePhone p) with
        | none => exact ⟨[], by simp, by simp, fun k => by simp [eventSum_nil]⟩
        | some r =>
          refine ⟨[{ phone := normalizePhone p,
                     source := jsStr reason "spend", amount := -a,
                     createdAt := now }], rfl, by simp, ?_⟩
          intro k
          rw [balanceOf_eq_base, balanceOf_eq_base, eventSum_single]
          simp only [findRec_setRec]
          by_cases hk : k = normalizePhone p
          · rw [if_pos hk, if_pos hk.symm]
            rw [hk, hfind]
            simp
            omega
          · rw [if_neg hk, if_neg (fun hh => hk hh.symm)]
            simp
    · refine ⟨[], ?_, by simp, ?_⟩
      · rw [step, spendOp_guard_false now phone amount reason st
          (Bool.eq_false_iff.2 hb)]
        simp
      · intro k
        rw [step, spendOp_guard_false now phone amount reason st
          (Bool.eq_false_iff.2 hb), eventSum_nil]
        simp

theorem foldl_balance_inv (l : List Op) (st : State)
    (h : ∀ k, balanceOf st k = eventSum st.events k) :
    ∀ k, balanceOf (l.foldl step st) k = eventSum (l.foldl step st).events k := by
  induction l generalizing st with
  | nil => exact h
  | cons o t ih =>
    apply ih
    intro k
    obtain ⟨new, he, _, hbal⟩ := step_events_delta st o
    rw [hbal k, he, eventSum_append, h k]

/-- C2: starting from the empty store, the balance of every player always
equals the sum of the signed amounts of the committed event records for
that key; moreover each step appends at most one event record and the
balance delta of every key equals the summed amount of what was appended
for that key, so every committed balance mutation carries exactly one
event with the matching signed amount. -/
theorem ledger_balance_eq_eventSum :
    (∀ ops k, balanceOf (run ops) k = eventSum (run ops).events k) ∧
    (∀ st o, ∃ new, (step st o).events = st.events ++ new ∧
      new.length ≤ 1 ∧
      ∀ k, balanceOf (step st o) k = balanceOf st k + eventSum new k) :=
  ⟨fun ops k => foldl_balance_inv ops emptyState (fun _ => rfl) k,
    step_events_delta⟩

/-- The stored best score of one game for one key, when present. -/
def bestScoreOf (st : State) (k g : String) : Option Int :=
  match findRec st.players k with
  | none => none
  | some r =>
    match findScore r.partyScores g with
    | none => none
    | some gs => some gs.bestScore

/-- The stored last score of one game for one key, when present. -/
def lastScoreOf (st : State) (k g : String) : Option Int :=
  match findRec st.players k with
  | none => none
  | some r =>
    match findScore r.partyScores g with
    | none => none
    | some gs => some gs.lastScore

/-- All stored best scores of a store are non-negative. -/
def ScoresNonneg (st : State) : Prop :=
  ∀ k r g gs, findRec st.players k = some r →
    findScore r.partyScores g = some gs → 0 ≤ gs.bestScore

theorem readBest_nonneg (st : State) (k g : String) (h : ScoresNonneg st) :
    0 ≤ readBest st.players k g := by
  cases hf : findRec st.players k with
  | none => simp [readBest, hf]
  | some r =>
    cases hs : findScore r.partyScores g with
    | none => simp [readBest, hf, hs]
    | some gs =>
      have hnn := h k r g gs hf hs
      by_cases hz : gs.bestScore = 0
      · simp [readBest, hf, hs, hz]
      · simp only [readBest, hf, hs, if_neg hz]
        exact hnn

theorem readBest_eq_of_bestScoreOf (st : State) (k g : String) (b : Int)
    (hb : bestScoreOf st k g = some b) (hnn : 0 ≤ b) :
    readBest st.players k g = b := by
  unfold bestScoreOf at hb
  cases hf : findRec st.players k with
  | none => simp [hf] at hb
  | some r =>
    simp only [hf] at hb
    cases hs : findScore r.partyScores g with
    | none => simp [hs] at hb
    | some gs =>
      simp only [hs, Option.some.injEq] at hb
      subst hb
      by_cases hz : gs.bestScore = 0
      · simp [readBest, hf, hs, hz]
      · simp [readBest, hf, hs, hz]

theorem scoresNonneg_empty : ScoresNonneg emptyState := by
  intro k r g gs hf _
  simp [emptyState, findRec] at hf

theorem scoresNonneg_step (st : State) (o : Op) (h : ScoresNonneg st) :
    ScoresNonneg (step st o) := by
  cases o with
  | register now name phone =>
    by_cases hb : truthyStr phone = true
    · obtain ⟨p, hpq, hp⟩ := (truthyStr_true_iff phone).1 hb
      subst hpq
      obtain ⟨hpl, _⟩ := registerOp_state_char st now name p hp
      intro k r g gs hf hs
      rw [step, hpl, findRec_setRec] at hf
      by_cases hk : k = normalizePhone p
      · rw [if_pos hk] at hf
        injection hf with h2
        subst h2
        cases hfind : findRec st.players (normalizePhone p) with
        | none => simp [hfind, findScore] at hs
        | some r0 =>
          simp only [hfind, Option.getD_some] at hs
          exact h _ r0 g gs hfind hs
      · rw [if_neg hk] at hf
        exact h _ _ _ _ hf hs
    · rw [step, registerOp_guard_false now name phone st
        (Bool.eq_false_iff.2 hb)]
      exact h
  | partyResult now phone gameId s c =>
    by_cases hb : (truthyStr phone && truthyStr gameId) = true
    · obtain ⟨hbp, hbg⟩ := Bool.and_eq_true_iff.1 hb
      obtain ⟨p, hpq, hp⟩ := (truthyStr_true_iff phone).1 hbp
      obtain ⟨g0, hgq, hg⟩ := (truthyStr_true_iff gameId).1 hbg
      subst hpq
      subst hgq
      intro k r g gs hf hs
      simp only [step, partyResultOp_char st now p g0 s c hp hg,
        findRec_setRec] at hf
      by_cases hk : k = normalizePhone p
      · rw [if_pos hk] at hf
        injection hf with h2
        subst h2
        simp only [findScore_setScore] at hs
        by_cases hgk : g = g0
        · rw [if_pos hgk] at hs
          injection hs with h3
          subst h3
          exact le_trans (readBest_nonneg st _ g0 h) (le_max_left _ _)
        · rw [if_neg hgk] at hs
          cases hfind : findRec st.players (normalizePhone p) with
          | none => simp [hfind, findScore] at hs
          | some r0 =>
            simp only [hfind, Option.getD_some] at hs
            exact h _ r0 g gs hfind hs
      · rw [if_neg hk] at hf
        exact h _ _ _ _ hf hs
    · rw [step, partyResultOp_guard_false st now phone gameId s c
        (Bool.eq_false_iff.2 hb)]
      exact h
  | spend now phone amount reason =>
    by_cases hb : (truthyStr phone && truthyInt amount) = true
    · obtain ⟨hbp, hba⟩ := Bool.and_eq_true_iff.1 hb
      obtain ⟨p, hpq, hp⟩ := (truthyStr_true_iff phone).1 hbp
      have ha0 : ∃ a : Int, amount = some a ∧ a ≠ 0 := by
        cases amount with
        | none => simp [truthyInt] at hba
        | some a =>
          refine ⟨a, rfl, ?_⟩
          simpa [truthyInt] using hba
      obtain ⟨a, haq, ha⟩ := ha0
      subst hpq
      subst haq
      intro k r g gs hf hs
      simp only [step, spendOp_char st now p a reason hp ha] at hf
      by_cases hlt : balanceOf st (normalizePhone p) < a
      · rw [if_pos hlt] at hf
        exact h _ _ _ _ hf hs
      · rw [if_neg hlt] at hf
        cases hfind : findRec st.players (normalizePhone p) with
        | none =>
          simp only [hfind] at hf
          exact h _ _ _ _ hf hs
        | some r0 =>
          simp only [hfind, findRec_setRec] at hf
          by_cases hk : k = normalizePhone p
          · rw [if_pos hk] at hf
            injection hf with h2
            subst h2
            exact h _ r0 g gs hfind hs
          · rw [if_neg hk] at hf
            exact h _ _ _ _ hf hs
    · rw [step, spendOp_guard_false now phone amount reason st
        (Bool.eq_false_iff.2 hb)]
      exact h

theorem scoresNonneg_foldl (l : List Op) (st : State) (h : ScoresNonneg st) :
    ScoresNonneg (l.foldl step st) := by
  induction l generalizing st with
  | nil => exact h
  | cons o t ih => exact ih _ (scoresNonneg_step st o h)

theorem scoresNonneg_run (ops : List Op) : ScoresNonneg (run ops) :=
  scoresNonneg_foldl ops emptyState scoresNonneg_empty

theorem award_step_scores (st : State) (now : Nat) (p g : String)
    (s c : Option Int) (hp : p ≠ "") (hg : g ≠ "") :
    bestScoreOf (partyResultOp now (some p) (some g) s c st).2
        (normalizePhone p) g =
      some (max (readBest st.players (normalizePhone p) g) (jsNum s)) ∧
    lastScoreOf (partyResultOp now (some p) (some g) s c st).2
        (normalizePhone p) g = some (jsNum s) := by
  rw [partyResultOp_char st now p g s c hp hg]
  constructor
  · simp [bestScoreOf, findRec_setRec, findScore_setScore]
  · simp [lastScoreOf, findRec_setRec, findScore_setScore]

theorem run_concat (A : List Op) (y : Op) : run (A ++ [y]) = step (run A) y := by
  simp [run, List.foldl_append]

theorem le_foldl_max (l : List Int) (i : Int) : i ≤ l.foldl max i := by
  induction l generalizing i with
  | nil => exact le_refl i
  | cons x t ih => exact le_trans (le_max_left i x) (ih (max i x))

/-- C10: after every committed award, the stored best score of the awarded
game is non-negative — the current best reads as 0 when absent or falsy,
stored bests of reachable states are never negative, and the new best is
a max with that read — even when every submitted score is negative. -/
theorem bestScore_nonneg_after_award (ops : List Op) (now : Nat)
    (p g : String) (s c : Option Int) (hp : p ≠ "") (hg : g ≠ "") :
    ∃ b, bestScoreOf
        (run (ops ++ [Op.partyResult now (some p) (some g) s c]))
        (normalizePhone p) g = some b ∧ 0 ≤ b := by
  refine ⟨max (readBest (run ops).players (normalizePhone p) g) (jsNum s),
    ?_, ?_⟩
  · rw [run_concat, step]
    exact (award_step_scores (run ops) now p g s c hp hg).1
  · exact le_trans (readBest_nonneg (run ops) _ g (scoresNonneg_run ops))
      (le_max_left _ _)

/-- C10 witness: a single award whose only submitted score is negative
still stores a non-negative best score; the theorem applied there. -/
theorem bestScore_nonneg_after_award_witness :
    ∃ b, bestScoreOf
        (run ([] ++ [Op.partyResult 0 (some "1") (some "g") (some (-3))
          (some 0)]))
        (normalizePhone "1") "g" = some b ∧ 0 ≤ b :=
  bestScore_nonneg_after_award [] 0 "1" "g" (some (-3)) (some 0)
    (by decide) (by decide)

/-- C5 counterexample: one committed award with submitted score `-3` (the
maximum score ever submitted for the game is therefore `-3`) stores a best
score of `0`, not `-3`. -/
theorem award_negative_score_best_not_max :
    bestScoreOf (run [Op.partyResult 0 (some "1") (some "g") (some (-3))
        (some 0)]) "1" "g" = some 0 ∧
    bestScoreOf (run [Op.partyResult 0 (some "1") (some "g") (some (-3))
        (some 0)]) "1" "g" ≠ some (-3) := by
  decide

theorem award_run_best (p g : String) (hp : p ≠ "") (hg : g ≠ "")
    (l : List (Nat × Option Int × Option Int)) :
    ∀ a0 : Nat × Option Int × Option Int,
      bestScoreOf (run (((l ++ [a0]).map (fun x =>
          Op.partyResult x.1 (some p) (some g) x.2.1 x.2.2)))
        ) (normalizePhone p) g =
        some (((l ++ [a0]).map (fun x => jsNum x.2.1)).foldl max 0) ∧
      lastScoreOf (run (((l ++ [a0]).map (fun x =>
          Op.partyResult x.1 (some p) (some g) x.2.1 x.2.2)))
        ) (normalizePhone p) g = some (jsNum a0.2.1) := by
  induction l using List.reverseRecOn with
  | nil =>
    intro a0
    have hstep := award_step_scores emptyState a0.1 p g a0.2.1 a0.2.2 hp hg
    constructor
    · simp only [List.nil_append, List.map_cons, List.map_nil]
      rw [show run [Op.partyResult a0.1 (some p) (some g) a0.2.1 a0.2.2] =
        (partyResultOp a0.1 (some p) (some g) a0.2.1 a0.2.2 emptyState).2
        from rfl]
      rw [hstep.1]
      have hrb : readBest emptyState.players (normalizePhone p) g = 0 := rfl
      rw [hrb]
      simp
    · simp only [List.nil_append, List.map_cons, List.map_nil]
      rw [show run [Op.partyResult a0.1 (some p) (some g) a0.2.1 a0.2.2] =
        (partyResultOp a0.1 (some p) (some g) a0.2.1 a0.2.2 emptyState).2
        from rfl]
      exact hstep.2
  | append_singleton l' b ih =>
    intro a0
    have hprev := ih b
    have hnn : 0 ≤ ((l' ++ [b]).map (fun x => jsNum x.2.1)).foldl max 0 :=
      le_foldl_max _ 0
    have hread := readBest_eq_of_bestScoreOf _ _ _ _ hprev.1 hnn
    have hstep := award_step_scores
      (run ((l' ++ [b]).map (fun x =>
        Op.partyResult x.1 (some p) (some g) x.2.1 x.2.2)))
      a0.1 p g a0.2.1 a0.2.2 hp hg
    have hmap : ((l' ++ [b]) ++ [a0]).map (fun x =>
        Op.partyResult x.1 (some p) (some g) x.2.1 x.2.2) =
      ((l' ++ [b]).map (fun x =>
        Op.partyResult x.1 (some p) (some g) x.2.1 x.2.2)) ++
      [Op.partyResult a0.1 (some p) (some g) a0.2.1 a0.2.2] := by
      simp
    constructor
    · rw [hmap, run_concat, step, hstep.1, hread]
      simp [List.foldl_append]
    · rw [hmap, run_concat, step]
      exact hstep.2

/-- C5 (amended): after any non-empty sequence of committed awards for one
key and game starting from the empty store, the stored best score equals
the maximum of 0 and the submitted scores (each read with the JS `|| 0`
default), and the stored last score is the last submitted score; an award
whose score is below the current best leaves the best unchanged. The
original claim — best equals the maximum of the submitted scores alone —
fails when every submitted score is negative. -/
theorem bestScore_eq_max_scores (p g : String) (hp : p ≠ "") (hg : g ≠ "")
    (awards : List (Nat × Option Int × Option Int)) (hne : awards ≠ []) :
    ∃ a, awards.getLast? = some a ∧
      bestScoreOf (run (awards.map (fun x =>
          Op.partyResult x.1 (some p) (some g) x.2.1 x.2.2)))
        (normalizePhone p) g =
        some ((awards.map (fun x => jsNum x.2.1)).foldl max 0) ∧
      lastScoreOf (run (awards.map (fun x =>
          Op.partyResult x.1 (some p) (some g) x.2.1 x.2.2)))
        (normalizePhone p) g = some (jsNum a.2.1) := by
  rcases List.eq_nil_or_concat awards with h | ⟨l, a0, rfl⟩
  · exact absurd h hne
  · rw [List.concat_eq_append]
    exact ⟨a0, List.getLast?_concat l,
      (award_run_best p g hp hg l a0).1, (award_run_best p g hp hg l a0).2⟩

/-- C5 witness: two awards with scores 10 then 3 leave a best score of 10
and a last score of 3; the amended theorem applied there. -/
theorem bestScore_eq_max_scores_witness :
    ∃ a, ([(0, some 10, some 5), (1, some 3, some 2)] :
        List (Nat × Option Int × Option Int)).getLast? = some a ∧
      bestScoreOf (run (([(0, some 10, some 5), (1, some 3, some 2)] :
          List (Nat × Option Int × Option Int)).map (fun x =>
          Op.partyResult x.1 (some "1") (some "g") x.2.1 x.2.2)))
        (normalizePhone "1") "g" =
        some ((([(0, some 10, some 5), (1, some 3, some 2)] :
          List (Nat × Option Int × Option Int)).map
            (fun x => jsNum x.2.1)).foldl max 0) ∧
      lastScoreOf (run (([(0, some 10, some 5), (1, some 3, some 2)] :
          List (Nat × Option Int × Option Int)).map (fun x =>
          Op.partyResult x.1 (some "1") (some "g") x.2.1 x.2.2)))
        (normalizePhone "1") "g" = some (jsNum a.2.1) :=
  bestScore_eq_max_scores "1" "g" (by decide) (by decide)
    [(0, some 10, some 5), (1, some 3, some 2)] (by decide)

/-- C9 witness: the idempotence theorem applied to a raw phone string. -/
theorem normalizePhone_idempotent_witness :
    normalizePhone (normalizePhone "+1 (555) 123-4567") =
      normalizePhone "+1 (555) 123-4567" :=
  normalizePhone_idempotent "+1 (555) 123-4567"

/-- C2 witness: the ledger invariant applied to a concrete run — a
registration, an award of 5, and a spend of 2 leave balance 3 equal to the
event sum for the key. -/
theorem ledger_balance_eq_eventSum_witness :
    balanceOf (run [Op.register 0 (some "Ann") (some "555-0100"),
      Op.partyResult 1 (some "5550100") (some "run") (some 10) (some 5),
      Op.spend 2 (some "5550100") (some 2) none]) "5550100" =
      eventSum (run [Op.register 0 (some "Ann") (some "555-0100"),
        Op.partyResult 1 (some "5550100") (some "run") (some 10) (some 5),
        Op.spend 2 (some "5550100") (some 2) none]).events "5550100" :=
  ledger_balance_eq_eventSum.1
    [Op.register 0 (some "Ann") (some "555-0100"),
      Op.partyResult 1 (some "5550100") (some "run") (some 10) (some 5),
      Op.spend 2 (some "5550100") (some 2) none] "5550100"

end DQCS
